import Mathlib

/-!
Verification of the Federal Register Analysis Tool API server
(`api/server.js`) against its specification.

The JavaScript code is shallowly embedded: JS runtime values that the
handlers manipulate become the inductive type `JSValue`; the defensive
`JSON.parse` calls are modelled by giving each TEXT column its parse
outcome (`DbField`); JS truthiness, property access (which throws a
`TypeError` on `null`/`undefined`), string coercion of `+`, and the
short-circuiting `||` operator are embedded as executable functions.
Code that can throw is embedded in `Except Unit`.
-/

/-- A JavaScript runtime value, as produced by `JSON.parse` and
manipulated by the handlers.  Numbers are modelled as integers (no
claim depends on float behaviour); `undefined` is the result of a
missing-property access and is never produced by `JSON.parse`. -/
inductive JSValue where
  | undefined
  | null
  | bool (b : Bool)
  | num (n : Int)
  | str (s : String)
  | arr (elems : List JSValue)
  | obj (fields : List (String × JSValue))

/-- JS truthiness (`ToBoolean`): `undefined`, `null`, `false`, `0` and
`""` are falsy; arrays and objects are always truthy. -/
def truthy : JSValue → Bool
  | .undefined => false
  | .null => false
  | .bool b => b
  | .num n => n != 0
  | .str s => s != ""
  | .arr _ => true
  | .obj _ => true

mutual

/-- JS `ToString`, as used by the `+` operator when one operand is a
string: `undefined` prints as `"undefined"`, objects as
`"[object Object]"`, arrays join their elements with `","`. -/
def toStrJS : JSValue → String
  | .undefined => "undefined"
  | .null => "null"
  | .bool b => if b then "true" else "false"
  | .num n => toString n
  | .str s => s
  | .arr xs => arrStr xs
  | .obj _ => "[object Object]"

/-- Array `toString`/`join(",")`: `null` and `undefined` elements print
as the empty string. -/
def arrStr : List JSValue → String
  | [] => ""
  | x :: rest =>
    let hd := match x with
      | .null => ""
      | .undefined => ""
      | v => toStrJS v
    match rest with
    | [] => hd
    | _ :: _ => hd ++ "," ++ arrStr rest

end

/-- Own-property lookup on a JS value: objects look the key up, any
other non-nullish value yields `undefined` (none of the keys the code
uses is a built-in property). -/
def objGet (v : JSValue) (k : String) : JSValue :=
  match v with
  | .obj fields =>
    match fields.find? (fun f => f.1 == k) with
    | some f => f.2
    | none => .undefined
  | _ => .undefined

/-- JS property access `v.k`: throws a `TypeError` when `v` is `null`
or `undefined`, otherwise `objGet`. -/
def getProp (v : JSValue) (k : String) : Except Unit JSValue :=
  match v with
  | .null => .error ()
  | .undefined => .error ()
  | _ => .ok (objGet v k)

/-- JS short-circuiting `a || b`: the left operand if truthy, else the
right; a thrown error propagates. -/
def jsOr (a : Except Unit JSValue) (b : Unit → Except Unit JSValue) :
    Except Unit JSValue :=
  match a with
  | .error e => .error e
  | .ok v => if truthy v then .ok v else b ()

/-- A TEXT column holding JSON, as the JS code observes it after
`JSON.parse`: SQL `NULL` (JS `null`), the empty string (both falsy, so
`col || '{}'` substitutes `'{}'`), or a non-empty string together with
its parse outcome (`.error` = malformed JSON, the parse throws). -/
inductive DbField where
  | dbNull
  | emptyStr
  | content (parsed : Except Unit JSValue)

/-- Whether the column is SQL `NULL` (used by `IS NOT NULL` filters). -/
def DbField.isNull : DbField → Bool
  | .dbNull => true
  | _ => false

/-- Embeds `let x = {}; try { x = JSON.parse(col || '{}') } catch {}`:
a falsy column parses `'{}'`; a malformed column leaves the default
empty object in place. -/
def parseOrEmpty : DbField → JSValue
  | .dbNull => .obj []
  | .emptyStr => .obj []
  | .content (.ok v) => v
  | .content (.error _) => .obj []

/-- A row of the listing join (`condensed_comments cc LEFT JOIN
comments c`), as selected by `GET /api/comments` and
`GET /api/comments/:id`. -/
structure CRow where
  comment_id : String
  status : String
  structured_sections : DbField
  created_at : String
  attributes_json : DbField
  original_id : Option String

/-- The normalized comment built by the listing/detail handlers: the
spread row, the parsed structured sections, and the five resolved flat
fields (which, being JS expressions, need not be strings). -/
structure NormalizedComment where
  row : CRow
  parsed_content : JSValue
  original_text : JSValue
  submitter_name : JSValue
  organization_name : JSValue
  submission_date : JSValue
  comment_url : JSValue

/-- `originalData.comment || originalData.commentText || originalData.content || ''`
(line 202/272). -/
def resolveOriginalText (od : JSValue) : Except Unit JSValue :=
  jsOr (getProp od "comment") fun _ =>
    jsOr (getProp od "commentText") fun _ =>
      jsOr (getProp od "content") fun _ => pure (.str "")

/-- `originalData.submitterName || originalData.firstName + ' ' + originalData.lastName || ''`
(line 203/273): `+` binds tighter than `||`, so the middle alternative
is the string concatenation of the two, possibly `undefined`,
values. -/
def resolveSubmitter (od : JSValue) : Except Unit JSValue :=
  jsOr (getProp od "submitterName") fun _ =>
    jsOr (do
        let f ← getProp od "firstName"
        let l ← getProp od "lastName"
        pure (JSValue.str (toStrJS f ++ " " ++ toStrJS l)))
      fun _ => pure (.str "")

/-- `originalData.organization || originalData.organizationName || ''`
(line 204/274). -/
def resolveOrganization (od : JSValue) : Except Unit JSValue :=
  jsOr (getProp od "organization") fun _ =>
    jsOr (getProp od "organizationName") fun _ => pure (.str "")

/-- `originalData.postedDate || originalData.submissionDate || originalData.datePosted || ''`
(line 205/275). -/
def resolveDate (od : JSValue) : Except Unit JSValue :=
  jsOr (getProp od "postedDate") fun _ =>
    jsOr (getProp od "submissionDate") fun _ =>
      jsOr (getProp od "datePosted") fun _ => pure (.str "")

/-- `originalData.commentURL || originalData.url || ''` (line 206/276). -/
def resolveUrl (od : JSValue) : Except Unit JSValue :=
  jsOr (getProp od "commentURL") fun _ =>
    jsOr (getProp od "url") fun _ => pure (.str "")

/-- The Record Normalizer of `GET /api/comments` (the map callback,
lines 181-210) and, verbatim the same logic, of `GET /api/comments/:id`
(lines 253-277): the parsed blobs plus the five resolved chains.  A
`TypeError` (property access on a nullish `originalData`) escapes to
the caller. -/
def processComment (row : CRow) : Except Unit NormalizedComment := do
  let parsed := parseOrEmpty row.structured_sections
  let od := parseOrEmpty row.attributes_json
  let ot ← resolveOriginalText od
  let sn ← resolveSubmitter od
  let og ← resolveOrganization od
  let sd ← resolveDate od
  let cu ← resolveUrl od
  pure { row := row, parsed_content := parsed, original_text := ot,
         submitter_name := sn, organization_name := og,
         submission_date := sd, comment_url := cu }

/-- The row shape selected by `GET /api/export` (lines 432-442):
`cc.comment_id, cc.structured_sections, cc.created_at, c.attributes_json`. -/
structure XRow where
  comment_id : String
  structured_sections : DbField
  created_at : String
  attributes_json : DbField

/-- Projection of a stored joined row onto the export SELECT list. -/
def CRow.toXRow (r : CRow) : XRow :=
  { comment_id := r.comment_id, structured_sections := r.structured_sections,
    created_at := r.created_at, attributes_json := r.attributes_json }

/-- The export record (lines 460-466): the spread row, the parsed
structured sections, and only three resolved fields. -/
structure ExportComment where
  row : XRow
  parsed_content : JSValue
  original_text : JSValue
  submitter_name : JSValue
  organization_name : JSValue

/-- The export normalizer (map callback, lines 444-467).  Its
resolution chains are shorter than the listing normalizer's:
`originalData.comment || originalData.commentText || ''`,
`originalData.submitterName || ''`, `originalData.organization || ''`. -/
def exportProcess (row : XRow) : Except Unit ExportComment := do
  let parsed := parseOrEmpty row.structured_sections
  let od := parseOrEmpty row.attributes_json
  let ot ← jsOr (getProp od "comment") fun _ =>
    jsOr (getProp od "commentText") fun _ => pure (.str "")
  let sn ← jsOr (getProp od "submitterName") fun _ => pure (.str "")
  let og ← jsOr (getProp od "organization") fun _ => pure (.str "")
  pure { row := row, parsed_content := parsed, original_text := ot,
         submitter_name := sn, organization_name := og }

/-- Total description of the listing normalizer on rows whose
attributes parse to a non-nullish value (on those rows
`processComment` cannot throw and returns exactly this record). -/
def listNormT (r : CRow) : NormalizedComment :=
  let od := parseOrEmpty r.attributes_json
  { row := r
    parsed_content := parseOrEmpty r.structured_sections
    original_text :=
      if truthy (objGet od "comment") then objGet od "comment"
      else if truthy (objGet od "commentText") then objGet od "commentText"
      else if truthy (objGet od "content") then objGet od "content"
      else .str ""
    submitter_name :=
      if truthy (objGet od "submitterName") then objGet od "submitterName"
      else if truthy (JSValue.str
          (toStrJS (objGet od "firstName") ++ " " ++ toStrJS (objGet od "lastName"))) then
        JSValue.str (toStrJS (objGet od "firstName") ++ " " ++ toStrJS (objGet od "lastName"))
      else .str ""
    organization_name :=
      if truthy (objGet od "organization") then objGet od "organization"
      else if truthy (objGet od "organizationName") then objGet od "organizationName"
      else .str ""
    submission_date :=
      if truthy (objGet od "postedDate") then objGet od "postedDate"
      else if truthy (objGet od "submissionDate") then objGet od "submissionDate"
      else if truthy (objGet od "datePosted") then objGet od "datePosted"
      else .str ""
    comment_url :=
      if truthy (objGet od "commentURL") then objGet od "commentURL"
      else if truthy (objGet od "url") then objGet od "url"
      else .str "" }

/-- Sequential `comments.map(...)` over the export rows: the first
thrown `TypeError` escapes to the error middleware. -/
def exportAll : List XRow → Except Unit (List ExportComment)
  | [] => .ok []
  | r :: rs => do
    let x ← exportProcess r
    let xs ← exportAll rs
    pure (x :: xs)

/-- Observable outcome of `GET /api/export`: the 400 policy rejection
carrying the true count, a 500 from an escaped exception, or the 200
payload. -/
inductive ExportOutcome where
  | refused (totalComments : Nat)
  | failed
  | ok (comments : List ExportComment)

/-- The export endpoint (lines 418-476).  The COUNT query and the row
query share the predicate `status = 'completed'`; the store list is
taken in the order the row query returns it (`ORDER BY created_at
DESC` only permutes rows and no claim depends on the order). -/
def exportEndpoint (db : List CRow) : ExportOutcome :=
  let cnt := (db.filter (fun r => r.status == "completed")).length
  if 100 < cnt then .refused cnt
  else
    match exportAll ((db.filter (fun r => r.status == "completed")).map CRow.toXRow) with
    | .error _ => .failed
    | .ok xs => .ok xs

/-- A positional SQL bind parameter as pushed by the listing handler. -/
inductive SqlParam where
  | s (v : String)
  | i (v : Int)
deriving DecidableEq

/-- The dynamic listing query built by `GET /api/comments`
(lines 135-178): the WHERE clause, the parameter list handed to the
row query (filter parameters then `LIMIT ?, OFFSET ?`), and the
parameter list handed to the count query (`params.slice(0, -2)`). -/
structure ListingQuery where
  whereClause : String
  filterParams : List SqlParam
  rowParams : List SqlParam
  countParams : List SqlParam

/-- The Query Builder (lines 135-178).  `offset = (page-1)*limit`;
status equality is mandatory; a non-empty `search` appends two LIKE
patterns, a non-empty `entity` one more; the count query reuses the
same `whereClause` string and strips the two pagination parameters
with `params.slice(0, -2)`. -/
def buildListing (page limit : Int) (search entity status : String) :
    ListingQuery :=
  let offset := (page - 1) * limit
  let wc0 := "WHERE cc.status = ?"
  let p0 : List SqlParam := [.s status]
  let wc1 := if search != "" then
      wc0 ++ " AND (c.attributes_json LIKE ? OR cc.structured_sections LIKE ?)"
    else wc0
  let p1 := if search != "" then
      p0 ++ [.s ("%" ++ search ++ "%"), .s ("%" ++ search ++ "%")]
    else p0
  let wc2 := if entity != "" then
      wc1 ++ " AND cc.structured_sections LIKE ?"
    else wc1
  let p2 := if entity != "" then p1 ++ [.s ("%" ++ entity ++ "%")] else p1
  let rowParams := p2 ++ [.i limit, .i offset]
  { whereClause := wc2, filterParams := p2, rowParams := rowParams,
    countParams := rowParams.take (rowParams.length - 2) }

/-- The pagination field `totalPages: Math.ceil(total / parseInt(limit))`
(line 220), with JS float division modelled as exact rational
division. -/
def jsTotalPages (total limit : Nat) : Int :=
  Int.ceil ((total : ℚ) / (limit : ℚ))

/-- ASCII whitespace trimmed by `String.prototype.trim` (the claims
only exercise these; the full JS set also has `\f`, `\v` and Unicode
spaces). -/
def isWs (c : Char) : Bool :=
  c == ' ' || c == '\t' || c == '\n' || c == '\r'

/-- JS `s.trim()`: strip leading and trailing whitespace. -/
def jsTrim (s : String) : String :=
  ⟨((s.data.dropWhile isWs).reverse.dropWhile isWs).reverse⟩

/-- `A`-`Z`, as in the regex class `[A-Z]`. -/
def isUpperCh (c : Char) : Bool := 'A' ≤ c && c ≤ 'Z'

/-- `a`-`z`, as in the regex class `[a-z]`. -/
def isLowerCh (c : Char) : Bool := 'a' ≤ c && c ≤ 'z'

/-- A regex word character (`\w`), deciding `\b` boundaries. -/
def isWordCh (c : Char) : Bool :=
  isUpperCh c || isLowerCh c || ('0' ≤ c && c ≤ '9') || c == '_'

/-- The alternation of organizational suffix words in the `orgPatterns`
regex (line 349), in source order. -/
def orgSuffixes : List String :=
  ["Health", "Medical", "Association", "Corp", "Inc", "LLC", "Company",
   "Group", "Systems", "Administration", "Institute", "Foundation",
   "Society", "Coalition", "Alliance", "Union", "Federation"]

/-- Does `pat` occur literally at the start of `cs`? -/
def startsWithChars : List Char → List Char → Bool
  | [], _ => true
  | _ :: _, [] => false
  | p :: ps, c :: cs => p == c && startsWithChars ps cs

/-- Split off the maximal run of `[a-z]` characters (the greedy
`[a-z]+`; backtracking into it can never help because the following
literal is a space, which the class excludes). -/
def takeLowerRun : List Char → List Char × List Char
  | [] => ([], [])
  | c :: cs =>
    if isLowerCh c then
      let (a, b) := takeLowerRun cs
      (c :: a, b)
    else ([], c :: cs)

/-- Try the suffix alternation at `cs`: the engine tries the
alternatives in source order and, when a literal matches but the
trailing `\b` fails, backtracks to the next alternative.  Returns the
matched word and the remaining input. -/
def suffixHit (cs : List Char) : Option (String × List Char) :=
  orgSuffixes.findSome? fun s =>
    if startsWithChars s.data cs then
      let rest := cs.drop s.data.length
      match rest with
      | [] => some (s, [])
      | d :: _ => if isWordCh d then none else some (s, rest)
    else none

/-- Try the whole pattern
`\b([A-Z][a-z]+ (?:Health|...|Federation))\b` anchored at the current
position.  `prevWord` says whether the character before the position is
a word character (deciding the leading `\b`). -/
def tryMatchAt (cs : List Char) (prevWord : Bool) :
    Option (List Char × List Char) :=
  match cs with
  | [] => none
  | c :: rest =>
    if prevWord then none
    else if isUpperCh c then
      match takeLowerRun rest with
      | ([], _) => none
      | (l :: ls, rest1) =>
        match rest1 with
        | [] => none
        | r1 :: rest2 =>
          if r1 = ' ' then
            match suffixHit rest2 with
            | some (sfx, rest3) =>
              some (c :: ((l :: ls) ++ ' ' :: sfx.data), rest3)
            | none => none
          else none
    else none

/-- The global-regex scan of `detailedContent.match(orgPatterns)`
(line 350): attempt a match at each position left to right; after a
match, resume right after it (matches never overlap).  `fuel` bounds
the recursion by the input length. -/
def scanOrg (fuel : Nat) (cs : List Char) (prevWord : Bool) :
    List (List Char) :=
  match fuel with
  | 0 => []
  | fuel + 1 =>
    match cs with
    | [] => []
    | c :: rest =>
      match tryMatchAt (c :: rest) prevWord with
      | some (m, rest2) => m :: scanOrg fuel rest2 true
      | none => scanOrg fuel rest (isWordCh c)

/-- All matches of the `orgPatterns` regex in a text (JS returns `null`
for no matches; the code only iterates the array, so `null` and `[]`
behave identically). -/
def orgMatches (cs : List Char) : List (List Char) :=
  scanOrg cs.length cs false

/-- The per-comment `keyPoints.forEach` loop (lines 327-335) of
fallback mining, flattened to the sequence of accumulator increments
it performs: each string point is trimmed and counted when truthy and
longer than 2; a non-string point makes `point.trim()` throw, which
aborts the comment's processing while keeping the increments already
performed (the `Bool` flags that abort). -/
def kpScan : List JSValue → List (String × String) × Bool
  | [] => ([], false)
  | .str s :: rest =>
    let key := jsTrim s
    let here := if key != "" && decide (2 < key.length) then
        [(key, "keypoint")]
      else []
    let (tail, ab) := kpScan rest
    (here ++ tail, ab)
  | _ :: _ => ([], true)

/-- The `detailedContent` step (lines 348-360): when truthy and a
string, every regex match is trimmed and counted as an organization;
a truthy non-string throws at `.match` (ending the comment, which this
step is last in anyway). -/
def dcContribs (v : JSValue) : List (String × String) :=
  let dc := objGet v "detailedContent"
  if truthy dc then
    match dc with
    | .str s => (orgMatches s.data).map fun m => (jsTrim ⟨m⟩, "organization")
    | _ => []
  else []

/-- The sequence of accumulator increments `(key, type)` one parsed
`structured_sections` value contributes in fallback mining
(lines 322-361), in execution order.  The whole comment body is inside
one `try`; a thrown `TypeError` keeps the increments already made and
skips the rest: accessing `.keyPoints` on a non-object `null` throws
immediately; a non-string key point aborts after the points before it;
a truthy non-string `category` throws at `.trim()`, dropping the
category and `detailedContent` steps. -/
def processParsed (v : JSValue) : List (String × String) :=
  match v with
  | .null => []
  | .undefined => []
  | _ =>
    let kp := objGet v "keyPoints"
    let (kpOut, ab) :=
      match kp with
      | .arr pts => kpScan pts
      | _ => ([], false)
    if ab then kpOut
    else
      kpOut ++
        (let cat := objGet v "category"
         if truthy cat then
           match cat with
           | .str s => (jsTrim s, "category") :: dcContribs v
           | _ => []
         else dcContribs v)

/-- Increments contributed by one scanned row: a malformed
`structured_sections` (parse throws) is skipped silently; note the
mining query (lines 313-317) excludes SQL `NULL`, and an empty string
fails to parse. -/
def rowContribs : DbField → List (String × String)
  | .dbNull => []
  | .emptyStr => []
  | .content (.error _) => []
  | .content (.ok v) => processParsed v

/-- A row of `condensed_comments` as scanned by fallback mining. -/
structure MRow where
  comment_id : String
  status : String
  structured_sections : DbField

/-- The full contribution stream of the fallback scan: rows with
`status = 'completed' AND structured_sections IS NOT NULL`, in query
order, each flattened to its increments. -/
def scanRows (db : List MRow) : List (String × String) :=
  (db.filter fun r => r.status == "completed" && !r.structured_sections.isNull).flatMap
    fun r => rowContribs r.structured_sections

/-- An entry of the `entityMap` accumulator / the final entity list:
`{name, count, type}` (the response renames the fields to
`entity_name`, `comment_count`, `entity_type`). -/
structure MinedEntity where
  name : String
  count : Nat
  type : String
deriving DecidableEq

/-- One accumulator increment (lines 330-334 and analogues): insert
`{name: key, count: 0, type}` if the key is new, then `count++`.  The
JS `Map` preserves insertion order, embedded as an association list
appended at the tail; an existing key keeps its original type. -/
def bump (m : List MinedEntity) (key ty : String) : List MinedEntity :=
  if m.any (fun e => e.name == key) then
    m.map fun e => if e.name == key then { e with count := e.count + 1 } else e
  else m ++ [{ name := key, count := 1, type := ty }]

/-- Folding the contribution stream through the accumulator
(`entityMap` after the `comments.forEach` loop). -/
def accumulate (l : List (String × String)) : List MinedEntity :=
  l.foldl (fun m kt => bump m kt.1 kt.2) []

/-- Insert an entity in front of the first element whose count does not
exceed it (descending order, earlier elements win ties). -/
def insertDesc (x : MinedEntity) : List MinedEntity → List MinedEntity
  | [] => [x]
  | y :: ys => if y.count ≤ x.count then x :: y :: ys else y :: insertDesc x ys

/-- The `sort((a, b) => b.count - a.count)` call (line 368): an ES2019
`Array.prototype.sort` is stable, and a stable sort by count descending
is extensionally this insertion sort. -/
def sortByCountDesc : List MinedEntity → List MinedEntity
  | [] => []
  | x :: xs => insertDesc x (sortByCountDesc xs)

/-- The fallback branch of `GET /api/entities` (lines 311-373):
accumulate, drop zero counts, sort by count descending. -/
def mineEntities (db : List MRow) : List MinedEntity :=
  sortByCountDesc ((accumulate (scanRows db)).filter fun e => 0 < e.count)

/-- Number of occurrences of the exact name `n` in a contribution
stream (the specification's notion of occurrence count). -/
def countOccs (n : String) (l : List (String × String)) : Nat :=
  (l.filter fun kt => kt.1 == n).length

/-- Invariant tying the `entityMap` accumulator to the stream of
increments already processed: every entry's count is the number of
occurrences of its exact name, entries have positive counts, and every
name that has occurred owns an entry. -/
def AccInv (m : List MinedEntity) (p : List (String × String)) : Prop :=
  (∀ e ∈ m, e.count = countOccs e.name p ∧ 1 ≤ e.count)
  ∧ ∀ n : String, 0 < countOccs n p → ∃ e ∈ m, e.name = n

/-- The shape the specification ascribes to an organization match: one
capitalized word (`[A-Z][a-z]+`), a space, and one word of the fixed
suffix vocabulary. -/
def OrgShape (m : List Char) : Prop :=
  ∃ c low sfx, sfx ∈ orgSuffixes ∧ isUpperCh c = true ∧ low ≠ [] ∧
    (∀ x ∈ low, isLowerCh x = true) ∧ m = c :: (low ++ ' ' :: sfx.data)

/-- Total description of the export normalizer on rows whose
attributes parse to a non-nullish value (on those rows `exportProcess`
cannot throw and returns exactly this record). -/
def exportNormT (row : XRow) : ExportComment :=
  let od := parseOrEmpty row.attributes_json
  { row := row
    parsed_content := parseOrEmpty row.structured_sections
    original_text :=
      if truthy (objGet od "comment") then objGet od "comment"
      else if truthy (objGet od "commentText") then objGet od "commentText"
      else .str ""
    submitter_name :=
      if truthy (objGet od "submitterName") then objGet od "submitterName"
      else .str ""
    organization_name :=
      if truthy (objGet od "organization") then objGet od "organization"
      else .str "" }

/-- A listing row whose attributes parse to the given object (the
other columns are irrelevant to field resolution). -/
def mkARow (fs : List (String × JSValue)) : CRow :=
  { comment_id := "c", status := "completed", structured_sections := .dbNull,
    created_at := "t", attributes_json := .content (.ok (.obj fs)),
    original_id := none }

/-- Counterexample row for C8: `comment` present with the falsy value
`""` and `commentText` present with `"hello"`. -/
def rowC8 : CRow := mkARow [("comment", .str ""), ("commentText", .str "hello")]

/-- Counterexample row for C9: every key that only the listing chains
consult is present and truthy. -/
def rowC9 : CRow := mkARow
  [("content", .str "xyz"), ("firstName", .str "A"), ("lastName", .str "B"),
   ("organizationName", .str "X")]

/-- Counterexample store for C4: one completed row whose
`attributes_json` is the JSON text `null`. -/
def dbNullRow : List CRow :=
  [{ comment_id := "c1", status := "completed", structured_sections := .dbNull,
     created_at := "t", attributes_json := .content (.ok .null),
     original_id := none }]

/-- Witness store for C4: 101 completed rows. -/
def db101 : List CRow :=
  List.replicate 101
    { comment_id := "c", status := "completed", structured_sections := .dbNull,
      created_at := "t", attributes_json := .dbNull, original_id := none }

/-- Witness store for C4: two completed rows with well-formed
attributes. -/
def dbSmall : List CRow :=
  [mkARow [("comment", .str "hi")], mkARow [("submitterName", .str "Sam")]]

/-- Witness store for C5: a key point twice in one comment and once in
another. -/
def dbC5 : List MRow :=
  [⟨"c1", "completed",
    .content (.ok (.obj [("keyPoints",
      .arr [.str "Cost concerns", .str "Cost concerns "])]))⟩,
   ⟨"c2", "completed",
    .content (.ok (.obj [("keyPoints", .arr [.str "Cost concerns"]),
      ("category", .str "Healthcare")]))⟩]

/-- Witness store for C6: three entities of equal count inserted in a
known order. -/
def dbC6 : List MRow :=
  [⟨"c1", "completed",
    .content (.ok (.obj [("keyPoints",
      .arr [.str "Zebra point", .str "Apple point", .str "Mango point"])]))⟩]

/-- Witness attribute object for C8. -/
def fsC8 : List (String × JSValue) :=
  [("comment", .str "A"), ("commentText", .str "B"),
   ("submitterName", .str "S"), ("organization", .str "O"),
   ("postedDate", .str "D"), ("commentURL", .str "U")]

/-- Witness attribute object for C9: only keys in the shared parts of
the chains. -/
def fsC9 : List (String × JSValue) := [("submitterName", .str "Sam")]

/-- C1: the claim states that for rows whose attributes or structured
sections fail to parse, all five resolved fields are the empty string,
and that the normalizer never throws.  The code does neither: on a
malformed `attributes_json` the resolved `submitter_name` is the
string `"undefined undefined"` (the JS `+` stringifies the two absent
names and the result is truthy, so the trailing `|| ''` never fires),
and on an `attributes_json` holding the JSON text `null` the property
access `originalData.comment` throws a `TypeError` to the caller. -/
theorem claim_C1_eval :
    ((processComment ⟨"c1", "completed", .dbNull, "t", .content (.error ()), none⟩).map
        NormalizedComment.submitter_name) = .ok (.str "undefined undefined")
    ∧ ((processComment ⟨"c1", "completed", .dbNull, "t", .content (.error ()), none⟩).map
        NormalizedComment.original_text) = .ok (.str "")
    ∧ JSValue.str "undefined undefined" ≠ JSValue.str ""
    ∧ (processComment ⟨"c2", "completed", .dbNull, "t", .content (.ok .null), none⟩)
        = .error () := by
  refine ⟨rfl, rfl, ?_, rfl⟩
  intro h
  injection h with h2
  exact absurd h2 (by decide)

/-- C2: the claim states that when `submitterName`, `firstName` and
`lastName` are all absent the resolved `submitter_name` is the empty
string.  On an attributes object with none of the three keys the code
instead yields `"undefined undefined"`: the middle alternative
`firstName + ' ' + lastName` stringifies two `undefined` values and is
truthy, so the chain never reaches `''`. -/
theorem claim_C2_eval :
    ((processComment (mkARow [])).map NormalizedComment.submitter_name)
      = .ok (.str "undefined undefined")
    ∧ JSValue.str "undefined undefined" ≠ JSValue.str "" := by
  refine ⟨rfl, ?_⟩
  intro h
  injection h with h2
  exact absurd h2 (by decide)

/-- C8 counterexample: with both `comment` (value `""`) and
`commentText` (value `"hello"`) present, the resolved `original_text`
is `commentText`'s value, not the higher-priority `comment`'s value —
`||` skips a present but falsy value. -/
theorem claim_C8_cex :
    objGet (parseOrEmpty rowC8.attributes_json) "comment" = .str ""
    ∧ objGet (parseOrEmpty rowC8.attributes_json) "commentText" = .str "hello"
    ∧ ((processComment rowC8).map NormalizedComment.original_text) = .ok (.str "hello")
    ∧ JSValue.str "hello" ≠ JSValue.str "" := by
  refine ⟨rfl, rfl, rfl, ?_⟩
  intro h
  injection h with h2
  exact absurd h2 (by decide)

/-- C9 counterexample: on a row whose attributes carry `content`,
`firstName`/`lastName` and `organizationName` (the keys only the
listing chains consult), the listing normalizer resolves
`("xyz", "A B", "X")` while the export normalizer resolves
`("", "", "")`: the export chains are truncated, not the same. -/
theorem claim_C9_cex :
    ((processComment rowC9).map NormalizedComment.original_text) = .ok (.str "xyz")
    ∧ ((exportProcess rowC9.toXRow).map ExportComment.original_text) = .ok (.str "")
    ∧ ((processComment rowC9).map NormalizedComment.submitter_name) = .ok (.str "A B")
    ∧ ((exportProcess rowC9.toXRow).map ExportComment.submitter_name) = .ok (.str "")
    ∧ ((processComment rowC9).map NormalizedComment.organization_name) = .ok (.str "X")
    ∧ ((exportProcess rowC9.toXRow).map ExportComment.organization_name) = .ok (.str "")
    ∧ JSValue.str "xyz" ≠ JSValue.str "" := by
  refine ⟨rfl, rfl, rfl, rfl, rfl, rfl, ?_⟩
  intro h
  injection h with h2
  exact absurd h2 (by decide)

/-- C4 counterexample: a store of one completed row (count 1 ≤ 100)
whose `attributes_json` is the JSON text `null` makes the export map
callback throw, so the endpoint responds with the 500 error outcome
instead of materializing the row. -/
theorem claim_C4_cex :
    exportEndpoint dbNullRow = .failed
    ∧ (dbNullRow.filter fun r => r.status == "completed").length = 1 := ⟨rfl, rfl⟩

/-- Math.ceil of an exact division of naturals equals the rounded-up
integer division `(total + limit - 1) / limit`. -/
theorem jsTotalPages_eq (total lim : Nat) (h : 1 ≤ lim) :
    jsTotalPages total lim = ((total + lim - 1) / lim : Nat) := by
  unfold jsTotalPages
  have hl0 : 0 < lim := h
  have hlq : (0 : ℚ) < (lim : ℚ) := by exact_mod_cast hl0
  set q : Nat := (total + lim - 1) / lim with hq
  have hdm : lim * q + (total + lim - 1) % lim = total + lim - 1 :=
    Nat.div_add_mod _ _
  have hr : (total + lim - 1) % lim < lim := Nat.mod_lt _ hl0
  have h1 : total ≤ lim * q := by omega
  have h2 : lim * q < total + lim := by omega
  apply le_antisymm
  · rw [Int.ceil_le, div_le_iff₀ hlq]
    have hc : (total : ℚ) ≤ ((lim * q : ℕ) : ℚ) := by exact_mod_cast h1
    push_cast at hc ⊢
    linarith
  · rw [Int.le_ceil_iff, lt_div_iff₀ hlq]
    have hc : ((lim * q : ℕ) : ℚ) < (total : ℚ) + lim := by exact_mod_cast h2
    push_cast at hc ⊢
    nlinarith

/-- C3: for every listing request, the count query's bound-parameter
sequence is exactly the row query's with the two trailing pagination
parameters stripped (`params.slice(0, -2)`), i.e. the filter
parameters in order (both queries interpolate the one shared
`whereClause` string), and `totalPages = Math.ceil(total / limit)` is
the rounded-up quotient. -/
theorem claim_C3 (page limit : Int) (search entity status : String)
    (total plimit : Nat) (h : 1 ≤ plimit) :
    (buildListing page limit search entity status).countParams
        = (buildListing page limit search entity status).filterParams
    ∧ (buildListing page limit search entity status).rowParams
        = (buildListing page limit search entity status).filterParams
            ++ [.i limit, .i ((page - 1) * limit)]
    ∧ jsTotalPages total plimit = ((total + plimit - 1) / plimit : Nat) := by
  refine ⟨?_, ?_, jsTotalPages_eq total plimit h⟩
  · unfold buildListing
    by_cases h1 : (search != "") = true <;> by_cases h2 : (entity != "") = true <;>
      simp [h1, h2, List.take]
  · unfold buildListing
    by_cases h1 : (search != "") = true <;> by_cases h2 : (entity != "") = true <;>
      simp [h1, h2]

/-- Witness for C3 at a concrete request (`page=2`, `limit=20`,
`search="tax"`, no entity filter, default status, `total=47`). -/
theorem claim_C3_witness :
    (buildListing 2 20 "tax" "" "completed").countParams
        = (buildListing 2 20 "tax" "" "completed").filterParams
    ∧ (buildListing 2 20 "tax" "" "completed").rowParams
        = (buildListing 2 20 "tax" "" "completed").filterParams
            ++ [.i 20, .i ((2 - 1) * 20)]
    ∧ jsTotalPages 47 20 = ((47 + 20 - 1) / 20 : Nat) :=
  claim_C3 2 20 "tax" "" "completed" 47 20 (by decide)

/-- Binding a successful `Except` computation applies the
continuation. -/
theorem exc_bind_ok {α β : Type} (a : α) (f : α → Except Unit β) :
    ((Except.ok a : Except Unit α) >>= f) = f a := rfl

/-- `pure` into `Except` is `Except.ok`. -/
theorem exc_pure {α : Type} (a : α) : (pure a : Except Unit α) = .ok a := rfl

/-- Mapping over a successful `Except` computation. -/
theorem exc_map_ok {α β : Type} (f : α → β) (a : α) :
    (Except.ok a : Except Unit α).map f = .ok (f a) := rfl

/-- Property access never throws on a non-nullish value. -/
theorem getProp_ok (od : JSValue) (h1 : od ≠ .null) (h2 : od ≠ .undefined) :
    ∀ k, getProp od k = .ok (objGet od k) := by
  intro k
  cases od <;> simp_all [getProp]

theorem resolveOriginalText_ok (od : JSValue) (h1 : od ≠ .null) (h2 : od ≠ .undefined) :
    resolveOriginalText od = .ok (
      if truthy (objGet od "comment") then objGet od "comment"
      else if truthy (objGet od "commentText") then objGet od "commentText"
      else if truthy (objGet od "content") then objGet od "content"
      else .str "") := by
  unfold resolveOriginalText
  simp only [getProp_ok od h1 h2, jsOr]
  split_ifs <;> rfl

theorem resolveSubmitter_ok (od : JSValue) (h1 : od ≠ .null) (h2 : od ≠ .undefined) :
    resolveSubmitter od = .ok (
      if truthy (objGet od "submitterName") then objGet od "submitterName"
      else if truthy (JSValue.str
          (toStrJS (objGet od "firstName") ++ " " ++ toStrJS (objGet od "lastName"))) then
        JSValue.str (toStrJS (objGet od "firstName") ++ " " ++ toStrJS (objGet od "lastName"))
      else .str "") := by
  unfold resolveSubmitter
  simp only [getProp_ok od h1 h2, jsOr, exc_bind_ok, exc_pure]
  split_ifs <;> rfl

theorem resolveOrganization_ok (od : JSValue) (h1 : od ≠ .null) (h2 : od ≠ .undefined) :
    resolveOrganization od = .ok (
      if truthy (objGet od "organization") then objGet od "organization"
      else if truthy (objGet od "organizationName") then objGet od "organizationName"
      else .str "") := by
  unfold resolveOrganization
  simp only [getProp_ok od h1 h2, jsOr]
  split_ifs <;> rfl

theorem resolveDate_ok (od : JSValue) (h1 : od ≠ .null) (h2 : od ≠ .undefined) :
    resolveDate od = .ok (
      if truthy (objGet od "postedDate") then objGet od "postedDate"
      else if truthy (objGet od "submissionDate") then objGet od "submissionDate"
      else if truthy (objGet od "datePosted") then objGet od "datePosted"
      else .str "") := by
  unfold resolveDate
  simp only [getProp_ok od h1 h2, jsOr]
  split_ifs <;> rfl

theorem resolveUrl_ok (od : JSValue) (h1 : od ≠ .null) (h2 : od ≠ .undefined) :
    resolveUrl od = .ok (
      if truthy (objGet od "commentURL") then objGet od "commentURL"
      else if truthy (objGet od "url") then objGet od "url"
      else .str "") := by
  unfold resolveUrl
  simp only [getProp_ok od h1 h2, jsOr]
  split_ifs <;> rfl

/-- On a row whose attributes parse to a non-nullish value, the
listing normalizer cannot throw and is described by `listNormT`. -/
theorem processComment_ok (r : CRow)
    (h1 : parseOrEmpty r.attributes_json ≠ .null)
    (h2 : parseOrEmpty r.attributes_json ≠ .undefined) :
    processComment r = .ok (listNormT r) := by
  unfold processComment listNormT
  simp only [resolveOriginalText_ok _ h1 h2, resolveSubmitter_ok _ h1 h2,
    resolveOrganization_ok _ h1 h2, resolveDate_ok _ h1 h2, resolveUrl_ok _ h1 h2]
  rfl

/-- On a row whose attributes parse to a non-nullish value, the export
normalizer cannot throw and is described by `exportNormT`. -/
theorem exportProcess_ok (r : XRow)
    (h1 : parseOrEmpty r.attributes_json ≠ .null)
    (h2 : parseOrEmpty r.attributes_json ≠ .undefined) :
    exportProcess r = .ok (exportNormT r) := by
  unfold exportProcess exportNormT
  simp only [getProp_ok _ h1 h2, jsOr]
  split_ifs <;> rfl

/-- C8 (amended): for every parsed attributes object, a
higher-priority key wins over a lower-priority key of the same chain
provided the higher-priority key's value is truthy (e.g. a non-empty
string); a present but falsy higher-priority value is skipped, which
is what the counterexample forces the claim to concede. -/
theorem claim_C8 (fs : List (String × JSValue)) :
    (truthy (objGet (.obj fs) "comment") = true →
      (processComment (mkARow fs)).map NormalizedComment.original_text
        = .ok (objGet (.obj fs) "comment"))
    ∧ (truthy (objGet (.obj fs) "comment") = false →
        truthy (objGet (.obj fs) "commentText") = true →
      (processComment (mkARow fs)).map NormalizedComment.original_text
        = .ok (objGet (.obj fs) "commentText"))
    ∧ (truthy (objGet (.obj fs) "submitterName") = true →
      (processComment (mkARow fs)).map NormalizedComment.submitter_name
        = .ok (objGet (.obj fs) "submitterName"))
    ∧ (truthy (objGet (.obj fs) "organization") = true →
      (processComment (mkARow fs)).map NormalizedComment.organization_name
        = .ok (objGet (.obj fs) "organization"))
    ∧ (truthy (objGet (.obj fs) "organization") = false →
        truthy (objGet (.obj fs) "organizationName") = true →
      (processComment (mkARow fs)).map NormalizedComment.organization_name
        = .ok (objGet (.obj fs) "organizationName"))
    ∧ (truthy (objGet (.obj fs) "postedDate") = true →
      (processComment (mkARow fs)).map NormalizedComment.submission_date
        = .ok (objGet (.obj fs) "postedDate"))
    ∧ (truthy (objGet (.obj fs) "postedDate") = false →
        truthy (objGet (.obj fs) "submissionDate") = true →
      (processComment (mkARow fs)).map NormalizedComment.submission_date
        = .ok (objGet (.obj fs) "submissionDate"))
    ∧ (truthy (objGet (.obj fs) "commentURL") = true →
      (processComment (mkARow fs)).map NormalizedComment.comment_url
        = .ok (objGet (.obj fs) "commentURL")) := by
  have hod : parseOrEmpty (mkARow fs).attributes_json = .obj fs := rfl
  have h1 : parseOrEmpty (mkARow fs).attributes_json ≠ .null := by
    rw [hod]; intro h; cases h
  have h2 : parseOrEmpty (mkARow fs).attributes_json ≠ .undefined := by
    rw [hod]; intro h; cases h
  rw [processComment_ok _ h1 h2]
  refine ⟨?_, ?_, ?_, ?_, ?_, ?_, ?_, ?_⟩ <;>
    · intros
      simp_all [listNormT, hod, exc_map_ok]

/-- Witness for C8: a concrete attributes object with every chain's
top key present and truthy. -/
theorem claim_C8_witness :
    (processComment (mkARow fsC8)).map NormalizedComment.original_text
      = .ok (objGet (.obj fsC8) "comment") :=
  (claim_C8 fsC8).1 (by decide)

/-- C9 (amended): the export path resolves its three retained fields
by truncated chains (`comment → commentText → ''`,
`submitterName → ''`, `organization → ''`), each an initial segment of
the listing chain; export and listing normalization therefore agree on
`original_text` whenever `content` is absent or falsy, on
`submitter_name` whenever `submitterName` is truthy, and on
`organization_name` whenever `organizationName` is absent or falsy —
but not in general, as the counterexample shows. -/
theorem claim_C9 (fs : List (String × JSValue)) :
    (truthy (objGet (.obj fs) "content") = false →
      (exportProcess (mkARow fs).toXRow).map ExportComment.original_text
        = (processComment (mkARow fs)).map NormalizedComment.original_text)
    ∧ (truthy (objGet (.obj fs) "submitterName") = true →
      (exportProcess (mkARow fs).toXRow).map ExportComment.submitter_name
        = (processComment (mkARow fs)).map NormalizedComment.submitter_name)
    ∧ (truthy (objGet (.obj fs) "organizationName") = false →
      (exportProcess (mkARow fs).toXRow).map ExportComment.organization_name
        = (processComment (mkARow fs)).map NormalizedComment.organization_name) := by
  have hod : parseOrEmpty (mkARow fs).attributes_json = .obj fs := rfl
  have hodx : parseOrEmpty (mkARow fs).toXRow.attributes_json = .obj fs := rfl
  have h1 : parseOrEmpty (mkARow fs).attributes_json ≠ .null := by
    rw [hod]; intro h; cases h
  have h2 : parseOrEmpty (mkARow fs).attributes_json ≠ .undefined := by
    rw [hod]; intro h; cases h
  have h1x : parseOrEmpty (mkARow fs).toXRow.attributes_json ≠ .null := by
    rw [hodx]; intro h; cases h
  have h2x : parseOrEmpty (mkARow fs).toXRow.attributes_json ≠ .undefined := by
    rw [hodx]; intro h; cases h
  rw [processComment_ok _ h1 h2, exportProcess_ok _ h1x h2x]
  refine ⟨?_, ?_, ?_⟩
  · intro hc
    by_cases hA : truthy (objGet (.obj fs) "comment") = true <;>
      by_cases hB : truthy (objGet (.obj fs) "commentText") = true <;>
        simp_all [listNormT, exportNormT, hod, hodx, exc_map_ok]
  · intro hs
    simp_all [listNormT, exportNormT, hod, hodx, exc_map_ok]
  · intro ho
    by_cases hA : truthy (objGet (.obj fs) "organization") = true <;>
      simp_all [listNormT, exportNormT, hod, hodx, exc_map_ok]

/-- Witness for C9: attributes carrying only `submitterName`, on which
all three agreement conditions hold. -/
theorem claim_C9_witness :
    ((exportProcess (mkARow fsC9).toXRow).map ExportComment.original_text
      = (processComment (mkARow fsC9)).map NormalizedComment.original_text)
    ∧ ((exportProcess (mkARow fsC9).toXRow).map ExportComment.submitter_name
      = (processComment (mkARow fsC9)).map NormalizedComment.submitter_name)
    ∧ ((exportProcess (mkARow fsC9).toXRow).map ExportComment.organization_name
      = (processComment (mkARow fsC9)).map NormalizedComment.organization_name) :=
  ⟨(claim_C9 fsC9).1 (by decide), (claim_C9 fsC9).2.1 (by decide),
   (claim_C9 fsC9).2.2 (by decide)⟩

/-- When every row's attributes parse non-nullishly, the export map
succeeds on all rows in order. -/
theorem exportAll_ok (rows : List XRow)
    (h : ∀ r ∈ rows, parseOrEmpty r.attributes_json ≠ .null
        ∧ parseOrEmpty r.attributes_json ≠ .undefined) :
    exportAll rows = .ok (rows.map exportNormT) := by
  induction rows with
  | nil => rfl
  | cons r rs ih =>
    have hr := h r (by simp)
    have hrs : ∀ x ∈ rs, parseOrEmpty x.attributes_json ≠ .null
        ∧ parseOrEmpty x.attributes_json ≠ .undefined := by
      intro x hx; exact h x (by simp [hx])
    unfold exportAll
    rw [exportProcess_ok r hr.1 hr.2, exc_bind_ok, ih hrs, exc_bind_ok]
    rfl

/-- C4 (amended): if the completed-row count exceeds 100 the export is
refused with the true count and no row data; if the count is at most
100 — and no completed row's `attributes_json` is the JSON text `null`
(such a row makes normalization throw and turns the response into a
500 error, as the counterexample shows) — every eligible completed row
is materialized through the export normalizer and returned. -/
theorem claim_C4 (db : List CRow) :
    (100 < (db.filter fun r => r.status == "completed").length →
      exportEndpoint db
        = .refused (db.filter fun r => r.status == "completed").length)
    ∧ ((db.filter fun r => r.status == "completed").length ≤ 100 →
      (∀ r ∈ db.filter fun r => r.status == "completed",
          parseOrEmpty r.attributes_json ≠ .null
          ∧ parseOrEmpty r.attributes_json ≠ .undefined) →
      exportEndpoint db
          = .ok (((db.filter fun r => r.status == "completed").map
              CRow.toXRow).map exportNormT)
        ∧ (((db.filter fun r => r.status == "completed").map
              CRow.toXRow).map exportNormT).length
          = (db.filter fun r => r.status == "completed").length) := by
  constructor
  · intro h
    unfold exportEndpoint
    rw [if_pos h]
  · intro h hsafe
    have hmap : ∀ x ∈ (db.filter fun r => r.status == "completed").map CRow.toXRow,
        parseOrEmpty x.attributes_json ≠ .null
        ∧ parseOrEmpty x.attributes_json ≠ .undefined := by
      intro x hx
      obtain ⟨r, hr, rfl⟩ := List.mem_map.mp hx
      exact hsafe r hr
    constructor
    · unfold exportEndpoint
      rw [if_neg (by omega), exportAll_ok _ hmap]
    · simp

/-- Witness for C4: a store of 101 completed rows is refused with the
count, and a store of 2 well-formed completed rows is fully
materialized. -/
theorem claim_C4_witness :
    exportEndpoint db101
      = .refused (db101.filter fun r => r.status == "completed").length
    ∧ exportEndpoint dbSmall
        = .ok (((dbSmall.filter fun r => r.status == "completed").map
            CRow.toXRow).map exportNormT) :=
  ⟨(claim_C4 db101).1 (by decide),
   ((claim_C4 dbSmall).2 (by decide) (by
      intro r hr
      have hcases : r = mkARow [("comment", .str "hi")]
          ∨ r = mkARow [("submitterName", .str "Sam")] :=
        (by simpa [dbSmall] using hr :
          (r = mkARow [("comment", JSValue.str "hi")]
            ∨ r = mkARow [("submitterName", JSValue.str "Sam")])
          ∧ r.status = "completed").1
      rcases hcases with h | h <;>
        · subst h
          refine ⟨?_, ?_⟩ <;> simp [mkARow, parseOrEmpty])).1⟩

/-- Appending one increment to the stream raises exactly its key's
occurrence count by one. -/
theorem countOccs_append_single (n k ty : String) (l : List (String × String)) :
    countOccs n (l ++ [(k, ty)])
      = countOccs n l + (if k == n then 1 else 0) := by
  unfold countOccs
  rw [List.filter_append, List.length_append]
  by_cases h : (k == n) = true <;> simp [List.filter, h]

/-- Flipping the operands of a false string comparison. -/
theorem beq_flip_false {a b : String} (h : (a == b) = false) :
    (b == a) = false := by
  simp only [beq_eq_false_iff_ne, ne_eq] at h ⊢
  exact fun hba => h hba.symm

/-- One `bump` preserves the accumulator invariant. -/
theorem bump_inv (m : List MinedEntity) (p : List (String × String))
    (k ty : String) (h : AccInv m p) :
    AccInv (bump m k ty) (p ++ [(k, ty)]) := by
  obtain ⟨h1, h2⟩ := h
  unfold bump
  by_cases hk : m.any (fun e => e.name == k) = true
  · rw [if_pos hk]
    constructor
    · intro e he
      obtain ⟨e0, he0, rfl⟩ := List.mem_map.mp he
      obtain ⟨hc0, hp0⟩ := h1 e0 he0
      by_cases hn : (e0.name == k) = true
      · have hek : e0.name = k := by simpa using hn
        rw [if_pos hn, countOccs_append_single]
        constructor
        · have hkk : (k == e0.name) = true := by simp [hek]
          simp only [hkk, if_true]
          omega
        · show 1 ≤ e0.count + 1
          omega
      · have hn' : (e0.name == k) = false := by
          simpa using hn
        have hkn : (k == e0.name) = false := beq_flip_false hn'
        rw [if_neg hn, countOccs_append_single]
        constructor
        · rw [hkn]
          simp only [Bool.false_eq_true, if_false]
          omega
        · omega
    · intro n hn
      rw [countOccs_append_single] at hn
      by_cases hkn : (k == n) = true
      · obtain ⟨e, he, hne⟩ := List.any_eq_true.mp hk
        refine ⟨if (e.name == k) = true then
            { e with count := e.count + 1 } else e,
          List.mem_map.mpr ⟨e, he, rfl⟩, ?_⟩
        have hek : e.name = k := by simpa using hne
        have hkn' : k = n := by simpa using hkn
        rw [if_pos (by simpa using hne)]
        simp [hek, hkn']
      · have hkn' : (k == n) = false := by simpa using hkn
        rw [hkn'] at hn
        simp only [Bool.false_eq_true, if_false] at hn
        obtain ⟨e, he, hne⟩ := h2 n (by omega)
        refine ⟨if (e.name == k) = true then
            { e with count := e.count + 1 } else e,
          List.mem_map.mpr ⟨e, he, rfl⟩, ?_⟩
        by_cases hh : (e.name == k) = true
        · rw [if_pos hh]; simpa using hne
        · rw [if_neg hh]; exact hne
  · rw [if_neg hk]
    have hnone : ∀ e ∈ m, (e.name == k) = false := by
      intro e he
      by_contra hc
      exact hk (List.any_eq_true.mpr ⟨e, he, by simpa using hc⟩)
    constructor
    · intro e he
      rcases List.mem_append.mp he with he | he
      · obtain ⟨hc0, hp0⟩ := h1 e he
        have hkn : (k == e.name) = false := beq_flip_false (hnone e he)
        rw [countOccs_append_single, hkn]
        simp only [Bool.false_eq_true, if_false]
        constructor <;> omega
      · simp only [List.mem_singleton] at he
        subst he
        rw [countOccs_append_single]
        have hzero : countOccs k p = 0 := by
          by_contra hc
          obtain ⟨e, he, hne⟩ := h2 k (by omega)
          have := hnone e he
          simp [hne] at this
        simp [hzero]
    · intro n hn
      rw [countOccs_append_single] at hn
      by_cases hkn : (k == n) = true
      · exact ⟨{ name := k, count := 1, type := ty }, by simp,
          by simpa using hkn⟩
      · have hkn' : (k == n) = false := by simpa using hkn
        rw [hkn'] at hn
        simp only [Bool.false_eq_true, if_false] at hn
        obtain ⟨e, he, hne⟩ := h2 n (by omega)
        exact ⟨e, List.mem_append_left _ he, hne⟩

/-- Folding a contribution stream through `bump` preserves the
invariant. -/
theorem foldl_bump_inv (l : List (String × String)) :
    ∀ (m : List MinedEntity) (p : List (String × String)), AccInv m p →
      AccInv (l.foldl (fun m kt => bump m kt.1 kt.2) m) (p ++ l) := by
  induction l with
  | nil => intro m p h; simpa using h
  | cons a l ih =>
    intro m p h
    obtain ⟨k, ty⟩ := a
    have h3 := ih (bump m k ty) (p ++ [(k, ty)]) (bump_inv m p k ty h)
    rw [List.append_cons]
    exact h3

/-- The accumulator built from a stream satisfies the invariant over
that stream. -/
theorem accumulate_inv (l : List (String × String)) : AccInv (accumulate l) l := by
  have h0 : AccInv [] [] := by
    constructor
    · intro e he; cases he
    · intro n hn; simp [countOccs] at hn
  have h1 := foldl_bump_inv l [] [] h0
  rw [List.nil_append] at h1
  exact h1

/-- Insertion permutes: the result holds the new element plus the old
list. -/
theorem insertDesc_perm (x : MinedEntity) (l : List MinedEntity) :
    List.Perm (insertDesc x l) (x :: l) := by
  induction l with
  | nil => exact List.Perm.refl _
  | cons y ys ih =>
    unfold insertDesc
    by_cases h : y.count ≤ x.count
    · rw [if_pos h]
    · rw [if_neg h]
      exact (ih.cons y).trans (List.Perm.swap x y ys)

/-- The embedded sort is a permutation. -/
theorem sortByCountDesc_perm (l : List MinedEntity) :
    List.Perm (sortByCountDesc l) l := by
  induction l with
  | nil => exact List.Perm.refl _
  | cons x xs ih =>
    exact (insertDesc_perm x (sortByCountDesc xs)).trans (ih.cons x)

/-- Inserting into a list sorted by count descending keeps it
sorted. -/
theorem insertDesc_pairwise (x : MinedEntity) (l : List MinedEntity)
    (h : List.Pairwise (fun a b => b.count ≤ a.count) l) :
    List.Pairwise (fun a b => b.count ≤ a.count) (insertDesc x l) := by
  induction l with
  | nil => simp [insertDesc]
  | cons y ys ih =>
    obtain ⟨hy, hys⟩ := List.pairwise_cons.mp h
    unfold insertDesc
    by_cases hc : y.count ≤ x.count
    · rw [if_pos hc]
      refine List.pairwise_cons.mpr ⟨?_, h⟩
      intro z hz
      rcases List.mem_cons.mp hz with rfl | hz
      · exact hc
      · exact le_trans (hy z hz) hc
    · rw [if_neg hc]
      refine List.pairwise_cons.mpr ⟨?_, ih hys⟩
      intro z hz
      have hz2 : z ∈ x :: ys := (insertDesc_perm x ys).mem_iff.mp hz
      rcases List.mem_cons.mp hz2 with rfl | hz'
      · omega
      · exact hy z hz'

/-- The embedded sort yields count-descending order. -/
theorem sortByCountDesc_pairwise (l : List MinedEntity) :
    List.Pairwise (fun a b => b.count ≤ a.count) (sortByCountDesc l) := by
  induction l with
  | nil => simp [sortByCountDesc]
  | cons x xs ih => exact insertDesc_pairwise x _ ih

/-- Insertion of an element of count `c` puts it in front of its
equal-count class (the insertion point is past only strictly larger
counts). -/
theorem insertDesc_filter_pos (x : MinedEntity) (c : Nat)
    (hx : (x.count == c) = true) (l : List MinedEntity) :
    (insertDesc x l).filter (fun e => e.count == c)
      = x :: l.filter (fun e => e.count == c) := by
  induction l with
  | nil => simp [insertDesc, hx]
  | cons y ys ih =>
    unfold insertDesc
    by_cases hc : y.count ≤ x.count
    · rw [if_pos hc]
      simp [List.filter_cons, hx]
    · rw [if_neg hc]
      have hxc : x.count = c := by simpa using hx
      have hyne : (y.count == c) = false := by
        have : ¬ y.count = c := by omega
        simpa using this
      rw [List.filter_cons, List.filter_cons, hyne]
      simp only [Bool.false_eq_true, if_false]
      exact ih

/-- Insertion of an element of a different count leaves the class
untouched. -/
theorem insertDesc_filter_neg (x : MinedEntity) (c : Nat)
    (hx : (x.count == c) = false) (l : List MinedEntity) :
    (insertDesc x l).filter (fun e => e.count == c)
      = l.filter (fun e => e.count == c) := by
  induction l with
  | nil => simp [insertDesc, hx]
  | cons y ys ih =>
    unfold insertDesc
    by_cases hc : y.count ≤ x.count
    · rw [if_pos hc]
      simp [List.filter_cons, hx]
    · rw [if_neg hc]
      rw [List.filter_cons, List.filter_cons]
      by_cases hy : (y.count == c) = true <;> simp [hy, ih]

/-- The embedded sort preserves each equal-count class in order
(stability). -/
theorem sortByCountDesc_filter (l : List MinedEntity) (c : Nat) :
    (sortByCountDesc l).filter (fun e => e.count == c)
      = l.filter (fun e => e.count == c) := by
  induction l with
  | nil => rfl
  | cons x xs ih =>
    show (insertDesc x (sortByCountDesc xs)).filter _ = _
    by_cases hx : (x.count == c) = true
    · rw [insertDesc_filter_pos x c hx, ih, List.filter_cons, hx]
      simp
    · have hx' : (x.count == c) = false := by simpa using hx
      rw [insertDesc_filter_neg x c hx', ih, List.filter_cons, hx']
      simp

/-- C5: every entity in the fallback-mining output has a count equal
to the number of occurrences of its exact trimmed name in the full
contribution stream of the scanned completed analyses — one increment
per occurrence, so a key point appearing twice in one comment's list
and once in another's counts 3; `countOccs` matches names by exact
string equality, so trimming never case-folds and names differing only
in letter case accumulate as distinct entities. -/
theorem claim_C5 (db : List MRow) (e : MinedEntity)
    (he : e ∈ mineEntities db) :
    e.count = countOccs e.name (scanRows db) := by
  have h1 : e ∈ (accumulate (scanRows db)).filter fun e => 0 < e.count :=
    (sortByCountDesc_perm
      ((accumulate (scanRows db)).filter fun e => 0 < e.count)).mem_iff.mp he
  have h2 : e ∈ accumulate (scanRows db) := List.mem_of_mem_filter h1
  exact ((accumulate_inv (scanRows db)).1 e h2).1

/-- Witness for C5 on `dbC5` ("Cost concerns" contributed twice by one
comment and once by another, total 3). -/
theorem claim_C5_witness :
    (⟨"Cost concerns", 3, "keypoint"⟩ : MinedEntity).count
      = countOccs "Cost concerns" (scanRows dbC5) :=
  claim_C5 dbC5 ⟨"Cost concerns", 3, "keypoint"⟩ (by decide)

/-- C6: the fallback-mining output is sorted by count descending;
entities of equal count keep the relative order of the accumulator,
i.e. first-insertion order (the `filter` of each equal-count class is
unchanged by the sort); and every emitted entity has count ≥ 1, so no
zero-count entity appears. -/
theorem claim_C6 (db : List MRow) :
    List.Pairwise (fun a b => b.count ≤ a.count) (mineEntities db)
    ∧ (∀ c : Nat, (mineEntities db).filter (fun e => e.count == c)
        = (accumulate (scanRows db)).filter (fun e => e.count == c))
    ∧ ∀ e ∈ mineEntities db, 1 ≤ e.count := by
  have hinv := accumulate_inv (scanRows db)
  have hall : (accumulate (scanRows db)).filter (fun e => 0 < e.count)
      = accumulate (scanRows db) := by
    rw [List.filter_eq_self]
    intro e he
    have := (hinv.1 e he).2
    simpa using this
  refine ⟨?_, ?_, ?_⟩
  · exact sortByCountDesc_pairwise _
  · intro c
    unfold mineEntities
    rw [sortByCountDesc_filter, hall]
  · intro e he
    have h1 : e ∈ accumulate (scanRows db) :=
      List.mem_of_mem_filter ((sortByCountDesc_perm
        ((accumulate (scanRows db)).filter fun e => 0 < e.count)).mem_iff.mp he)
    exact (hinv.1 e h1).2

/-- Witness for C6 on `dbC6` (three equal-count entities inserted in a
known order): the count-1 class of the output equals that of the
accumulator, and a member of the output has count ≥ 1. -/
theorem claim_C6_witness :
    ((mineEntities dbC6).filter (fun e => e.count == 1)
      = (accumulate (scanRows dbC6)).filter (fun e => e.count == 1))
    ∧ 1 ≤ (⟨"Zebra point", 1, "keypoint"⟩ : MinedEntity).count :=
  ⟨(claim_C6 dbC6).2.1 1,
   (claim_C6 dbC6).2.2 ⟨"Zebra point", 1, "keypoint"⟩ (by decide)⟩

/-- Every character produced by the greedy lowercase run is
lowercase. -/
theorem takeLowerRun_low (cs : List Char) :
    ∀ x ∈ (takeLowerRun cs).1, isLowerCh x = true := by
  induction cs with
  | nil => intro x hx; cases hx
  | cons c cs ih =>
    intro x hx
    unfold takeLowerRun at hx
    by_cases h : isLowerCh c = true
    · rw [if_pos h] at hx
      rcases List.mem_cons.mp hx with rfl | hx'
      · exact h
      · exact ih x hx'
    · rw [if_neg h] at hx
      cases hx

/-- A successful suffix-alternation attempt returns a word of the
vocabulary. -/
theorem suffixHit_mem (cs : List Char) (s : String) (rest : List Char)
    (h : suffixHit cs = some (s, rest)) : s ∈ orgSuffixes := by
  unfold suffixHit at h
  obtain ⟨a, ha, hfa⟩ := List.exists_of_findSome?_eq_some h
  have hsa : s = a := by
    by_cases h1 : startsWithChars a.data cs = true
    · rw [if_pos h1] at hfa
      dsimp only at hfa
      rcases hrest : cs.drop a.data.length with _ | ⟨d, ds⟩ <;>
        rw [hrest] at hfa <;> dsimp only at hfa
      · injection hfa with hfa'
        injection hfa' with h2 h3
        exact h2.symm
      · by_cases h2 : isWordCh d = true
        · rw [if_pos h2] at hfa; cases hfa
        · rw [if_neg h2] at hfa
          injection hfa with hfa'
          injection hfa' with h3 h4
          exact h3.symm
    · rw [if_neg h1] at hfa; cases hfa
  rw [hsa]
  exact ha

/-- A match produced at a position has the shape the pattern
prescribes: one `[A-Z]` character, a non-empty `[a-z]+` run, a space,
and a vocabulary suffix. -/
theorem tryMatchAt_shape (cs : List Char) (prev : Bool) (m rest : List Char)
    (h : tryMatchAt cs prev = some (m, rest)) : OrgShape m := by
  unfold tryMatchAt at h
  rcases cs with _ | ⟨c, cs'⟩
  · cases h
  · dsimp only at h
    by_cases hp : prev = true
    · rw [if_pos hp] at h; cases h
    · rw [if_neg hp] at h
      by_cases hu : isUpperCh c = true
      · rw [if_pos hu] at h
        rcases htl : takeLowerRun cs' with ⟨low, rest1⟩
        rw [htl] at h
        rcases low with _ | ⟨l0, ls⟩
        · cases h
        · dsimp only at h
          rcases rest1 with _ | ⟨r1, rest2⟩
          · cases h
          · dsimp only at h
            by_cases hsp : r1 = ' '
            · rw [if_pos hsp] at h
              rcases hsh : suffixHit rest2 with _ | ⟨sfx, rest3⟩ <;>
                rw [hsh] at h
              · cases h
              · injection h with h'
                injection h' with hm hr
                refine ⟨c, l0 :: ls, sfx, suffixHit_mem _ _ _ hsh, hu,
                  by simp, ?_, hm.symm⟩
                intro x hx
                have hx2 : x ∈ (takeLowerRun cs').1 := by rw [htl]; exact hx
                exact takeLowerRun_low cs' x hx2
            · rw [if_neg hsp] at h; cases h
      · rw [if_neg hu] at h; cases h

/-- Every match the global scan emits has the prescribed shape. -/
theorem scanOrg_shape (fuel : Nat) :
    ∀ (cs : List Char) (prev : Bool) (m : List Char),
      m ∈ scanOrg fuel cs prev → OrgShape m := by
  induction fuel with
  | zero => intro cs prev m hm; cases hm
  | succ fuel ih =>
    intro cs prev m hm
    unfold scanOrg at hm
    rcases cs with _ | ⟨c, rest⟩
    · cases hm
    · dsimp only at hm
      rcases htm : tryMatchAt (c :: rest) prev with _ | ⟨m0, rest2⟩ <;>
        rw [htm] at hm
      · exact ih rest (isWordCh c) m hm
      · rcases List.mem_cons.mp hm with rfl | hm2
        · exact tryMatchAt_shape _ _ _ _ htm
        · exact ih rest2 true m hm2

/-- C7: the organization increments mined from a `detailedContent`
text are exactly the regex matches, in order, each trimmed and typed
`organization` — one increment per occurrence; and every match has the
pattern's shape: one capitalized `[A-Z][a-z]+` word, a space, and one
word of the fixed suffix vocabulary (matched case-sensitively — the
character classes are exactly `A`-`Z` and `a`-`z`). -/
theorem claim_C7 (s : String) :
    processParsed (.obj [("detailedContent", .str s)])
      = (orgMatches s.data).map (fun m => (jsTrim ⟨m⟩, "organization"))
    ∧ ∀ m ∈ orgMatches s.data, OrgShape m := by
  constructor
  · by_cases hs : s = ""
    · subst hs; rfl
    · have ht : truthy (JSValue.str s) = true := by simp [truthy, hs]
      have hob : objGet (.obj [("detailedContent", JSValue.str s)]) "detailedContent"
          = JSValue.str s := rfl
      have hbase : processParsed (.obj [("detailedContent", JSValue.str s)])
          = dcContribs (.obj [("detailedContent", JSValue.str s)]) := rfl
      rw [hbase]
      unfold dcContribs
      rw [hob, if_pos ht]
  · intro m hm
    exact scanOrg_shape _ _ _ _ hm

/-- Witness for C7 on the text `"Acme Health rocks"`, whose single
match is `"Acme Health"`. -/
theorem claim_C7_witness :
    processParsed (.obj [("detailedContent", .str "Acme Health rocks")])
      = (orgMatches "Acme Health rocks".data).map
          (fun m => (jsTrim ⟨m⟩, "organization"))
    ∧ OrgShape ("Acme Health".data) :=
  ⟨(claim_C7 "Acme Health rocks").1,
   (claim_C7 "Acme Health rocks").2 "Acme Health".data (by decide)⟩

/-- C10: the category branch of fallback mining applies no
minimum-length filter: any truthy category string — even one that
trims to length ≤ 2, including a whitespace-only one trimming to the
empty string — is inserted and counted as a `category`-typed entity
(so an entity with an empty name can appear in the output), whereas a
key point whose trimmed length is ≤ 2 is dropped. -/
theorem claim_C10 (s : String) (hs : s ≠ "") (hlen : (jsTrim s).length ≤ 2) :
    mineEntities [⟨"c1", "completed",
        .content (.ok (.obj [("category", .str s)]))⟩]
      = [{ name := jsTrim s, count := 1, type := "category" }]
    ∧ mineEntities [⟨"c2", "completed",
        .content (.ok (.obj [("keyPoints", .arr [.str s])]))⟩] = [] := by
  have ht : truthy (JSValue.str s) = true := by simp [truthy, hs]
  constructor
  · have hpp1 : processParsed (.obj [("category", JSValue.str s)])
        = [(jsTrim s, "category")] := by
      show (if truthy (JSValue.str s) = true then
          (jsTrim s, "category") :: dcContribs (.obj [("category", JSValue.str s)])
        else dcContribs (.obj [("category", JSValue.str s)]))
        = [(jsTrim s, "category")]
      rw [if_pos ht]
      rfl
    have hscan1 : scanRows [⟨"c1", "completed",
        .content (.ok (.obj [("category", .str s)]))⟩]
        = [(jsTrim s, "category")] := by
      show processParsed (.obj [("category", JSValue.str s)]) ++ []
        = [(jsTrim s, "category")]
      rw [hpp1]
      rfl
    unfold mineEntities
    rw [hscan1]
    rfl
  · have hcond : ((jsTrim s != "") && decide (2 < (jsTrim s).length)) = false := by
      have h2 : decide (2 < (jsTrim s).length) = false :=
        decide_eq_false (by omega)
      rw [h2, Bool.and_false]
    have hpp2 : processParsed (.obj [("keyPoints", .arr [JSValue.str s])]) = [] := by
      show ((if ((jsTrim s != "") && decide (2 < (jsTrim s).length)) = true then
          [(jsTrim s, "keypoint")] else []) ++ []) ++ [] = []
      rw [hcond]
      simp
    have hscan2 : scanRows [⟨"c2", "completed",
        .content (.ok (.obj [("keyPoints", .arr [.str s])]))⟩] = [] := by
      show processParsed (.obj [("keyPoints", .arr [JSValue.str s])]) ++ [] = []
      rw [hpp2]
      rfl
    unfold mineEntities
    rw [hscan2]
    rfl

/-- Witness for C10 at the whitespace-only category `" "`, which trims
to the empty string yet is emitted as a category entity. -/
theorem claim_C10_witness :
    mineEntities [⟨"c1", "completed",
        .content (.ok (.obj [("category", .str " ")]))⟩]
      = [{ name := jsTrim " ", count := 1, type := "category" }]
    ∧ mineEntities [⟨"c2", "completed",
        .content (.ok (.obj [("keyPoints", .arr [.str " "])]))⟩] = [] :=
  claim_C10 " " (by decide) (by decide)
